import Mathlib

/-!
Verification of the `hc` calculator core (src/stack.rs, src/hc.rs, src/state.rs).

The Rust code is shallowly embedded: `BigDecimal` values are pairs of an
unbounded integer and an integer scale (value = intVal * 10^(-scale)),
`InstantStack`, `Undoable` and `Stack` are structures, and the mutating Rust
methods become pure functions that return the new state.  Fallible methods
return `Except StackError _` paired with the state the Rust `&mut self`
holds when the call returns, so transactionality is a theorem, not an
assumption.  Machine integers (`i64`, `u64`, `usize`) are modelled as
unbounded integers except where a cast is load-bearing: the `scale as u64`
cast in `Stack::snapshot` is modelled exactly as reduction modulo 2^64.
-/

namespace HC

/-- Decimal value of the external bigdecimal crate: `intVal * 10^(-scale)`.
The crate stores an arbitrary-precision signed integer and an `i64` scale
(spec section 3: "(unscaled integer, scale) such that value =
unscaled * 10^(-scale)"); the scale may be negative. -/
structure BigDecimal where
  intVal : ℤ
  scale : ℤ
deriving DecidableEq, Repr

/-- The zero decimal, `BigDecimal::zero()`. -/
def BigDecimal.zero : BigDecimal := ⟨0, 0⟩

/-- Align two decimals to their common (maximal) scale and return the two
scaled unscaled-integers.  This is the comparison/addition alignment the
crate performs (`take_and_scale` to `max(scale_a, scale_b)`). -/
def alignInts (a b : BigDecimal) : ℤ × ℤ :=
  let s := max a.scale b.scale
  (a.intVal * 10 ^ (s - a.scale).toNat, b.intVal * 10 ^ (s - b.scale).toNat)

/-- Value equality of two decimals, the crate's `PartialEq` (`1.0 == 1.00`). -/
def BigDecimal.veq (a b : BigDecimal) : Prop :=
  (alignInts a b).1 = (alignInts a b).2

instance (a b : BigDecimal) : Decidable (a.veq b) := by
  unfold BigDecimal.veq; infer_instance

/-- Value order on decimals, the crate's `PartialOrd`. -/
def BigDecimal.vlt (a b : BigDecimal) : Prop :=
  (alignInts a b).1 < (alignInts a b).2

instance (a b : BigDecimal) : Decidable (a.vlt b) := by
  unfold BigDecimal.vlt; infer_instance

/-- Value order (non-strict) on decimals. -/
def BigDecimal.vle (a b : BigDecimal) : Prop :=
  (alignInts a b).1 ≤ (alignInts a b).2

instance (a b : BigDecimal) : Decidable (a.vle b) := by
  unfold BigDecimal.vle; infer_instance

/-- Modelled from the spec (section 3, decimal component; the arithmetic
lives in the external bigdecimal crate, not under src/): addition aligns
both operands to the larger scale and adds the unscaled integers. -/
def addBD (a b : BigDecimal) : BigDecimal :=
  ⟨(alignInts a b).1 + (alignInts a b).2, max a.scale b.scale⟩

/-- Modelled from the spec (section 3): subtraction, scale-aligned. -/
def subBD (a b : BigDecimal) : BigDecimal :=
  ⟨(alignInts a b).1 - (alignInts a b).2, max a.scale b.scale⟩

/-- Modelled from the spec (section 3): multiplication multiplies the
unscaled integers and adds the scales. -/
def mulBD (a b : BigDecimal) : BigDecimal :=
  ⟨a.intVal * b.intVal, a.scale + b.scale⟩

/-- Modelled from the spec (sections 3 and 4.3, "Modulo : push a mod b",
whose only listed failure is `MissingValue(2)`): remainder after scale
alignment, with the sign convention of Rust's `%` (truncated division,
`Int.tmod`).  The spec makes Modulo total, so a zero divisor returns the
dividend (`Int.tmod a 0 = a`); the external crate's `%` is not part of
src/. -/
def remBD (a b : BigDecimal) : BigDecimal :=
  ⟨Int.tmod (alignInts a b).1 (alignInts a b).2, max a.scale b.scale⟩

/-- Modelled from the spec (section 3; division lives in the external
crate): the exact quotient truncated toward zero at 100 fractional digits
(100 is the crate's default precision cap).  `a/b * 10^100 =
a.intVal * 10^(b.scale - a.scale + 100) / b.intVal`. -/
def divBD (a b : BigDecimal) : BigDecimal :=
  let e : ℤ := b.scale - a.scale + 100
  if 0 ≤ e then ⟨Int.tdiv (a.intVal * 10 ^ e.toNat) b.intVal, 100⟩
  else ⟨Int.tdiv a.intVal (b.intVal * 10 ^ (-e).toNat), 100⟩

/-- Modelled from the spec (section 3; square root lives in the external
crate): the square root truncated at 100 fractional digits, for a
non-negative operand (the caller validates non-negativity first). -/
def sqrtBD (a : BigDecimal) : BigDecimal :=
  let e : ℤ := 200 - a.scale
  if 0 ≤ e then ⟨(Nat.sqrt (a.intVal * 10 ^ e.toNat).toNat : ℤ), 100⟩
  else ⟨(Nat.sqrt (a.intVal.toNat / 10 ^ (-e).toNat) : ℤ), 100⟩

/-- Modelled from the spec (glossary "Precision (display): ... never pads,
only truncates" and section 4.3 snapshot; the primitive itself is the
external crate's `with_scale`): re-represent at the given scale, padding
the unscaled integer with zeros when the scale grows and truncating toward
zero when it shrinks. -/
def BigDecimal.withScale (v : BigDecimal) (newScale : ℤ) : BigDecimal :=
  if v.intVal = 0 then ⟨0, newScale⟩
  else if v.scale < newScale then ⟨v.intVal * 10 ^ (newScale - v.scale).toNat, newScale⟩
  else if newScale < v.scale then ⟨Int.tdiv v.intVal (10 ^ (v.scale - newScale).toNat), newScale⟩
  else v

/-- Modelled from the spec (section 3 "is-integer"): a decimal is an
integer when its scale is non-positive or the fractional digits are all
zero. -/
def BigDecimal.isInteger (v : BigDecimal) : Prop :=
  v.scale ≤ 0 ∨ v.intVal % 10 ^ v.scale.toNat = 0

instance (v : BigDecimal) : Decidable v.isInteger := by
  unfold BigDecimal.isInteger; infer_instance

/-- Fuel-driven bit counter (structural recursion so that concrete values
reduce inside the kernel); the fuel is always sufficient when it exceeds
the bit length. -/
def natBitsF : ℕ → ℕ → ℕ
  | 0, _ => 0
  | fuel + 1, n => if n = 0 then 0 else natBitsF fuel (n / 2) + 1

/-- Bit length of a big integer's magnitude (`num_bigint::BigInt::bits`):
0 for 0, otherwise ⌊log2⌋ + 1. -/
def intBits (n : ℤ) : ℕ :=
  natBitsF (n.natAbs + 1) n.natAbs

/-- Constructor `BigDecimal::from_bigint(n, scale)`.  It does NOT
normalize: the repository's own test `pow_representation`
(src/stack.rs) asserts that `10^2` is stored with unscaled integer 100 and
scale 0, so trailing zeros are kept as digits. -/
def fromBigInt (n : ℤ) (scale : ℤ) : BigDecimal := ⟨n, scale⟩

/-- Integer value of a decimal already known to be a positive integer
(`to_u64().unwrap()` after validation): flush the scale and read the
unscaled integer. -/
def BigDecimal.toU64 (v : BigDecimal) : ℕ :=
  (v.withScale 0).intVal.toNat

/-- Errors of the stack core (src/stack.rs `StackError`). -/
inductive StackError where
  | MissingValue (n : ℕ)
  | InvalidArgument (msg : String)
deriving DecidableEq, Repr

instance {ε α : Type} [DecidableEq ε] [DecidableEq α] : DecidableEq (Except ε α) := by
  intro a b
  cases a <;> cases b
  case error.error e e' => exact decidable_of_iff (e = e') (by simp)
  case error.ok e v => exact .isFalse (by simp)
  case ok.error v e => exact .isFalse (by simp)
  case ok.ok v v' => exact decidable_of_iff (v = v') (by simp)

/-- Operations of the calculator core (src/stack.rs `Op`). -/
inductive Op where
  | Push (v : BigDecimal)
  | Add
  | Subtract
  | Multiply
  | Divide
  | Modulo
  | Sqrt
  | Pow
  | Duplicate
  | Pop
  | Precision
  | Rotate
  | Undo
  | Redo
deriving DecidableEq, Repr

/-- Cap of `Op::Pow` result size, `MAX_BIT_COUNT` in src/stack.rs. -/
def MAX_BIT_COUNT : ℤ := 1024

/-- Default display precision, `DEFAULT_PRECISION` in src/stack.rs. -/
def DEFAULT_PRECISION : ℕ := 12

/-- Instantaneous stack (src/stack.rs `InstantStack`): values top-first
plus the display precision (`u64`, modelled as ℕ). -/
structure InstantStack where
  stack : List BigDecimal
  precision : ℕ
deriving DecidableEq, Repr

instance : Inhabited InstantStack := ⟨⟨[], DEFAULT_PRECISION⟩⟩

/-- Method `InstantStack::push_front`. -/
def InstantStack.push_front (s : InstantStack) (v : BigDecimal) : InstantStack :=
  { s with stack := v :: s.stack }

/-- Method `InstantStack::pop_front`. -/
def InstantStack.pop_front (s : InstantStack) : Option BigDecimal × InstantStack :=
  match s.stack with
  | [] => (none, s)
  | v :: rest => (some v, { s with stack := rest })

/-- Generic pop primitive `InstantStack::prep_and_pop` at C = 2 (the Rust
function is const-generic; the program instantiates it at C ∈ {1, 2}).
If fewer than 2 elements exist it fails with `MissingValue 2`; otherwise
the transform sees the top two elements in reverse order of popping
(`x1` was beneath `x0`, so the pair is `(a, b) = (x1, x0)`); only if the
transform succeeds are the two elements drained.  The returned
`InstantStack` is the state of the Rust `&mut self` when the call
returns. -/
def prepAndPop2 {α : Type} (f : BigDecimal → BigDecimal → Except StackError α)
    (s : InstantStack) : Except StackError α × InstantStack :=
  match s.stack with
  | x0 :: x1 :: rest =>
    match f x1 x0 with
    | .error e => (.error e, s)
    | .ok r => (.ok r, { s with stack := rest })
  | _ => (.error (.MissingValue 2), s)

/-- Generic pop primitive `InstantStack::prep_and_pop` at C = 1. -/
def prepAndPop1 {α : Type} (f : BigDecimal → Except StackError α)
    (s : InstantStack) : Except StackError α × InstantStack :=
  match s.stack with
  | x0 :: rest =>
    match f x0 with
    | .error e => (.error e, s)
    | .ok r => (.ok r, { s with stack := rest })
  | _ => (.error (.MissingValue 1), s)

/-- Method `InstantStack::check_and_pop` at C = 2: `prep_and_pop`
specialized to validate-then-return-the-elements. -/
def checkAndPop2 (validator : BigDecimal → BigDecimal → Except StackError Unit)
    (s : InstantStack) : Except StackError (BigDecimal × BigDecimal) × InstantStack :=
  prepAndPop2 (fun a b =>
    match validator a b with
    | .error e => .error e
    | .ok _ => .ok (a, b)) s

/-- Method `InstantStack::check_and_pop` at C = 1. -/
def checkAndPop1 (validator : BigDecimal → Except StackError Unit)
    (s : InstantStack) : Except StackError BigDecimal × InstantStack :=
  prepAndPop1 (fun a =>
    match validator a with
    | .error e => .error e
    | .ok _ => .ok a) s

/-- Method `InstantStack::pop` at C = 2: `check_and_pop` with an
always-succeeding validator. -/
def pop2 (s : InstantStack) : Except StackError (BigDecimal × BigDecimal) × InstantStack :=
  checkAndPop2 (fun _ _ => .ok ()) s

/-- Method `InstantStack::pop` at C = 1. -/
def pop1 (s : InstantStack) : Except StackError BigDecimal × InstantStack :=
  checkAndPop1 (fun _ => .ok ()) s

/-- The validator closure of `Op::Divide` (src/stack.rs): the top
element (`stack[1]` of the reversed pair, bound here as `b`) must be
non-zero. -/
def divideValidator (_a b : BigDecimal) : Except StackError Unit :=
  if b.veq BigDecimal.zero then
    .error (.InvalidArgument "element 1 must be non-zero")
  else .ok ()

/-- The validator closure of `Op::Sqrt` (src/stack.rs): the operand must
not be negative. -/
def sqrtValidator (a : BigDecimal) : Except StackError Unit :=
  if a.vlt BigDecimal.zero then
    .error (.InvalidArgument "element 1 must be positive")
  else .ok ()

/-- The validator closure of `Op::Precision` (src/stack.rs): the operand
must be a positive integer no greater than `i64::MAX`. -/
def precisionValidator (a : BigDecimal) : Except StackError Unit :=
  if a.vle BigDecimal.zero ∨ (⟨(2 : ℤ) ^ 63 - 1, 0⟩ : BigDecimal).vlt a ∨ ¬ a.isInteger then
    .error (.InvalidArgument "element 1 must be a positive integer")
  else .ok ()

/-- The transform `Op::Pow` passes to `prep_and_pop` (src/stack.rs):
validate that the exponent `b` is a positive integer below `u64::MAX` and
the base `a` an integer, flush both scales to zero, and enforce the
`MAX_BIT_COUNT` cap on `bits(a) * b`. -/
def powPrep (a b : BigDecimal) : Except StackError (ℤ × ℤ) :=
  if ¬ (b.isInteger ∧ BigDecimal.zero.vlt b ∧ b.vlt ⟨(2 : ℤ) ^ 64 - 1, 0⟩) then
    .error (.InvalidArgument "element 1 must be a positive integer")
  else if ¬ a.isInteger then
    .error (.InvalidArgument "element 2 must be an integer")
  else if (intBits (a.withScale 0).intVal : ℤ) * (b.withScale 0).intVal > MAX_BIT_COUNT then
    .error (.InvalidArgument "too big for me")
  else
    .ok ((a.withScale 0).intVal, (b.withScale 0).intVal)

/-- Function `apply_on_stack` (src/stack.rs): per-operation mutation of an
`InstantStack`.  The returned stack is the state of the Rust `&mut s` when
the function returns. -/
def applyOnStack (s : InstantStack) (op : Op) : Except StackError Unit × InstantStack :=
  match op with
  | .Undo | .Redo => (.ok (), s)
  | .Push v => (.ok (), s.push_front v)
  | .Add =>
    match pop2 s with
    | (.error e, s') => (.error e, s')
    | (.ok (a, b), s') => (.ok (), s'.push_front (addBD a b))
  | .Subtract =>
    match pop2 s with
    | (.error e, s') => (.error e, s')
    | (.ok (a, b), s') => (.ok (), s'.push_front (subBD a b))
  | .Multiply =>
    match pop2 s with
    | (.error e, s') => (.error e, s')
    | (.ok (a, b), s') => (.ok (), s'.push_front (mulBD a b))
  | .Divide =>
    match checkAndPop2 divideValidator s with
    | (.error e, s') => (.error e, s')
    | (.ok (a, b), s') => (.ok (), s'.push_front (divBD a b))
  | .Modulo =>
    match pop2 s with
    | (.error e, s') => (.error e, s')
    | (.ok (a, b), s') => (.ok (), s'.push_front (remBD a b))
  | .Sqrt =>
    match checkAndPop1 sqrtValidator s with
    | (.error e, s') => (.error e, s')
    | (.ok a, s') => (.ok (), s'.push_front (sqrtBD a))
  | .Pow =>
    match prepAndPop2 powPrep s with
    | (.error e, s') => (.error e, s')
    | (.ok (a0, b0), s') => (.ok (), s'.push_front (fromBigInt (a0 ^ b0.toNat) 0))
  | .Duplicate =>
    match pop1 s with
    | (.error e, s') => (.error e, s')
    | (.ok a, s') => (.ok (), (s'.push_front a).push_front a)
  | .Pop =>
    match pop1 s with
    | (.error e, s') => (.error e, s')
    | (.ok _, s') => (.ok (), s')
  | .Precision =>
    match checkAndPop1 precisionValidator s with
    | (.error e, s') => (.error e, s')
    | (.ok a, s') => (.ok (), { s' with precision := a.toU64 })
  | .Rotate =>
    match pop2 s with
    | (.error e, s') => (.error e, s')
    | (.ok (a, b), s') => (.ok (), (s'.push_front b).push_front a)

/-- Generic linear history (src/stack.rs `Undoable<T>`). -/
structure Undoable (T : Type) where
  history : List T
  current : ℕ
deriving DecidableEq, Repr

/-- Constructor `Undoable::new`. -/
def Undoable.new {T : Type} (start : T) : Undoable T := ⟨[start], 0⟩

/-- Method `Undoable::add`: truncate the history to `current + 1`
entries, push the new state and advance the cursor. -/
def Undoable.add {T : Type} (u : Undoable T) (v : T) : Undoable T :=
  { history := u.history.take (u.current + 1) ++ [v], current := u.current + 1 }

/-- Method `Undoable::undo`: report whether a previous state exists and
move the cursor back if so. -/
def Undoable.undo {T : Type} (u : Undoable T) : Bool × Undoable T :=
  if u.current = 0 then (false, u)
  else (true, { u with current := u.current - 1 })

/-- Method `Undoable::redo`: report whether a later state exists and move
the cursor forward if so. -/
def Undoable.redo {T : Type} (u : Undoable T) : Bool × Undoable T :=
  if u.history.length - 1 ≤ u.current then (false, u)
  else (true, { u with current := u.current + 1 })

/-- Method `Undoable::cur`: the element under the cursor (in Rust an
index into the vector, in range under the invariant). -/
def Undoable.cur {T : Type} [Inhabited T] (u : Undoable T) : T :=
  u.history.getD u.current default

/-- The calculator state (src/stack.rs `Stack`). -/
structure Stack where
  stack : Undoable InstantStack
deriving DecidableEq, Repr

/-- Constructor `Stack::from`: initial values plus optional precision,
defaulting to `DEFAULT_PRECISION` = 12. -/
def Stack.fromValues (values : List BigDecimal) (precision : Option ℕ) : Stack :=
  ⟨Undoable.new ⟨values, precision.getD DEFAULT_PRECISION⟩⟩

/-- Method `Stack::apply` (src/stack.rs): Undo/Redo act on the history
cursor; any other op runs on a clone of the current `InstantStack`, which
is committed via `Undoable::add` only on success.  The returned `Stack` is
the state of the Rust `&mut self` when the call returns. -/
def Stack.apply (st : Stack) (op : Op) : Except StackError Unit × Stack :=
  match op with
  | .Undo =>
    match st.stack.undo with
    | (true, u') => (.ok (), ⟨u'⟩)
    | (false, u') => (.error (.InvalidArgument "Nothing to undo."), ⟨u'⟩)
  | .Redo =>
    match st.stack.redo with
    | (true, u') => (.ok (), ⟨u'⟩)
    | (false, u') => (.error (.InvalidArgument "Nothing to redo."), ⟨u'⟩)
  | op =>
    match applyOnStack st.stack.cur op with
    | (.ok _, s') => (.ok (), ⟨st.stack.add s'⟩)
    | (.error e, _) => (.error e, st)

/-- Reinterpretation of an `i64` as a `u64` (`scale as u64` in
`Stack::snapshot`): reduction modulo 2^64, so negative scales wrap to
huge unsigned values. -/
def i64AsU64 (s : ℤ) : ℤ := s % (2 : ℤ) ^ 64

/-- The per-value projection `Stack::snapshot` applies: cap the scale at
the display precision.  The Rust comparison is `scale as u64 >
cur.precision` on unsigned integers. -/
def scaleCap (p : ℕ) (v : BigDecimal) : BigDecimal :=
  if (p : ℤ) < i64AsU64 v.scale then v.withScale (p : ℤ) else v

/-- Method `Stack::snapshot`: the current values, each with its scale
capped at the display precision. -/
def Stack.snapshot (st : Stack) : List BigDecimal :=
  st.stack.cur.stack.map (scaleCap st.stack.cur.precision)

/-- Method `Stack::precision`. -/
def Stack.precision (st : Stack) : ℕ := st.stack.cur.precision

/-- Persisted record (spec section 6; `TryFrom<State> for Stack` in
src/stack.rs reads a list of decimal strings plus an optional precision;
note src/state.rs in this snapshot lacks the precision field, so the
record is modelled from the spec). -/
structure State where
  stack : List String
  precision : Option ℕ

/-- Vec equality of the crate (`assert_eq!` on `Vec<BigDecimal>`):
same length and pairwise value equality. -/
def vecEqBD (xs ys : List BigDecimal) : Prop :=
  List.Forall₂ BigDecimal.veq xs ys

/-- Fuel-driven digit expansion (structural recursion so that concrete
values reduce inside the kernel). -/
def natDigitsF : ℕ → ℕ → List Char
  | 0, _ => []
  | fuel + 1, n =>
    if n < 10 then [Nat.digitChar n]
    else natDigitsF fuel (n / 10) ++ [Nat.digitChar (n % 10)]

/-- Decimal digits of a natural number, most significant first
(helper for the canonical string of a decimal); `n + 1` units of fuel
always suffice. -/
def natDigits (n : ℕ) : List Char := natDigitsF (n + 1) n

/-- Decimal digits of an integer, with sign (`format!` of an integer). -/
def intChars (z : ℤ) : List Char :=
  (if z < 0 then ['-'] else []) ++ natDigits z.natAbs

/-- Fuel-driven trailing-zero stripping (structural recursion so that
concrete values reduce inside the kernel). -/
def stripZerosF : ℕ → ℤ → ℤ → ℤ × ℤ
  | 0, n, s => (n, s)
  | fuel + 1, n, s =>
    if n ≠ 0 ∧ n % 10 = 0 then stripZerosF fuel (Int.tdiv n 10) (s - 1)
    else (n, s)

/-- Strip factors of 10 from the unscaled integer, lowering the scale
accordingly (the trailing-zero loop of the crate's `normalized`);
`natAbs n` units of fuel always suffice. -/
def stripTrailingZeros (n : ℤ) (s : ℤ) : ℤ × ℤ :=
  stripZerosF n.natAbs n s

/-- Normalization `BigDecimal::normalized()` (called explicitly by
`format_number` in src/hc.rs): zero becomes `(0, 0)`, otherwise trailing
zero digits are collapsed into the scale (possibly making it negative). -/
def BigDecimal.normalized (v : BigDecimal) : BigDecimal :=
  if v.intVal = 0 then ⟨0, 0⟩
  else ⟨(stripTrailingZeros v.intVal v.scale).1, (stripTrailingZeros v.intVal v.scale).2⟩

/-- Modelled from the spec (section 4.4 step 1; the crate's
`to_plain_string`): the non-exponential decimal string of a value, as a
character list.  Non-positive scales append zeros; positive scales insert
the decimal point, left-padding with zeros when the digits are fewer than
the scale. -/
def toPlainChars (v : BigDecimal) : List Char :=
  let sign : List Char := if v.intVal < 0 then ['-'] else []
  let digits := natDigits v.intVal.natAbs
  if v.scale ≤ 0 then
    sign ++ digits ++ List.replicate (-v.scale).toNat '0'
  else if (v.scale : ℤ) < digits.length then
    sign ++ digits.take (digits.length - v.scale.toNat) ++
      '.' :: digits.drop (digits.length - v.scale.toNat)
  else
    sign ++ '0' :: '.' :: List.replicate (v.scale.toNat - digits.length) '0' ++ digits

/-- Function `add_separators` (src/hc.rs): insert a space every three
digits of the integer part, counted from the right, sign excluded. -/
def addSeparators (repr : List Char) : List Char :=
  let signRest : List Char × List Char :=
    match repr with
    | '-' :: rest => (['-'], rest)
    | _ => ([], repr)
  let digitsRest : List Char × List Char :=
    match signRest.2.findIdx? (fun c => c = '.') with
    | some idx => (signRest.2.take idx, signRest.2.drop idx)
    | none => (signRest.2, [])
  let len := digitsRest.1.length
  signRest.1 ++
    (digitsRest.1.enum.foldl (fun acc ic =>
      acc ++ (if 0 < ic.1 ∧ (len - ic.1) % 3 = 0 then [' ', ic.2] else [ic.2])) []) ++
    digitsRest.2

/-- The canonical representation `format_number` works on:
`n.normalized().to_plain_string()` (src/hc.rs line 488). -/
def reprOf (n : BigDecimal) : List Char := toPlainChars n.normalized

/-- Local `digits_after_dot` of `format_number`. -/
def digitsAfterDot (repr : List Char) : ℤ :=
  match repr.findIdx? (fun c => c = '.') with
  | some idx => (repr.length : ℤ) - idx - 1
  | none => 0

/-- Local `digits_to_dot` of `format_number`. -/
def digitsToDot (repr : List Char) : ℤ :=
  (repr.length : ℤ) - digitsAfterDot repr

/-- Local `digits_before_dot` of `format_number`. -/
def digitsBeforeDot (repr : List Char) : ℤ :=
  digitsToDot repr - (if 0 < digitsAfterDot repr then 1 else 0)

/-- Local `abs_start` of `format_number`: 1 when the value is negative
(the Rust code compares `n < &BigDecimal::zero()` by value). -/
def absStart (n : BigDecimal) : ℤ :=
  if n.vlt BigDecimal.zero then 1 else 0

/-- The magnitude token `~<POW>~` of the split layout: the count of
integer digits before the decimal point, sign excluded. -/
def powToken (n : BigDecimal) (repr : List Char) : List Char :=
  '~' :: intChars (digitsBeforeDot repr - absStart n) ++ ['~']

/-- Number of parts the split layout fills: 2, or 3 when a fractional
part exists. -/
def partsOf (repr : List Char) : ℤ :=
  if 0 < digitsAfterDot repr then 3 else 2

/-- Remaining character budget of the split layout after the sign, the
decimal point and the magnitude token are accounted for. -/
def budgetOf (n : BigDecimal) (width : ℕ) (repr : List Char) : ℤ :=
  (width : ℤ) - absStart n - (if 0 < digitsAfterDot repr then 1 else 0) -
    (powToken n repr).length

/-- Division of the split budget among the parts (src/hc.rs lines
552-553): the most-significant segment receives `budget / parts + budget
% parts`, every other segment receives `budget / parts`. -/
def splitShares (budget parts : ℤ) : ℤ × ℤ :=
  (Int.tdiv budget parts + Int.tmod budget parts, Int.tdiv budget parts)

/-- Function `format_number` (src/hc.rs): render a decimal inside `width`
character cells (the rendered `Line` is modelled as its character list).
Branches, in order: the representation fits (optionally grouped); simple
fractional truncation with a trailing marker; the split layout
`[SGN][MSB][~POW~][LSB][.RES]`; or the bare marker when even the split
does not fit. -/
def format_number (n : BigDecimal) (width : ℕ) (separator : Bool) : List Char :=
  if (reprOf n).length ≤ width then
    if separator = false then reprOf n
    else if (addSeparators (reprOf n)).length ≤ width then addSeparators (reprOf n)
    else reprOf n
  else if 0 < digitsAfterDot (reprOf n) ∧
      0 ≤ (width : ℤ) - digitsToDot (reprOf n) - 1 then
    (reprOf n).take
        (digitsToDot (reprOf n) + ((width : ℤ) - digitsToDot (reprOf n) - 1)).toNat ++ ['~']
  else if budgetOf n width (reprOf n) < partsOf (reprOf n) then ['~']
  else
    (reprOf n).take
        ((splitShares (budgetOf n width (reprOf n)) (partsOf (reprOf n))).1.toNat +
          (absStart n).toNat) ++
      powToken n (reprOf n) ++
      (if 0 < digitsAfterDot (reprOf n) then
        ((reprOf n).take
            ((min
              (digitsToDot (reprOf n) +
                (splitShares (budgetOf n width (reprOf n)) (partsOf (reprOf n))).2)
              ((reprOf n).length : ℤ)).toNat)).drop
          (digitsToDot (reprOf n) -
            (splitShares (budgetOf n width (reprOf n)) (partsOf (reprOf n))).2 - 1).toNat
      else
        (reprOf n).drop
          ((reprOf n).length -
            (splitShares (budgetOf n width (reprOf n)) (partsOf (reprOf n))).2.toNat))

/-- Modelled from the spec (section 6; `BigDecimal::from_str` lives in
the external crate): parse a decimal literal — optional sign, digits with
an optional fractional part, and an optional decimal exponent — into an
exact decimal.  Any other shape is rejected. -/
def parseBigDecimal (str : String) : Option BigDecimal :=
  let cs := str.toList
  let signRest : ℤ × List Char :=
    match cs with
    | '+' :: rest => (1, rest)
    | '-' :: rest => (-1, rest)
    | _ => (1, cs)
  let mantExp : List Char × Option (List Char) :=
    match signRest.2.findIdx? (fun c => c = 'e' ∨ c = 'E') with
    | some idx => (signRest.2.take idx, some (signRest.2.drop (idx + 1)))
    | none => (signRest.2, none)
  let mantissa : Option (ℕ × ℕ) :=
    match mantExp.1.findIdx? (fun c => c = '.') with
    | some idx =>
      let ip := mantExp.1.take idx
      let fp := mantExp.1.drop (idx + 1)
      if (ip ++ fp) ≠ [] ∧ (ip ++ fp).all Char.isDigit then
        some (((ip ++ fp).map (fun c => c.toNat - 48)).foldl (fun acc d => acc * 10 + d) 0,
          fp.length)
      else none
    | none =>
      if mantExp.1 ≠ [] ∧ mantExp.1.all Char.isDigit then
        some ((mantExp.1.map (fun c => c.toNat - 48)).foldl (fun acc d => acc * 10 + d) 0, 0)
      else none
  let expVal : Option ℤ :=
    match mantExp.2 with
    | none => some 0
    | some es =>
      let signDigits : ℤ × List Char :=
        match es with
        | '+' :: rest => (1, rest)
        | '-' :: rest => (-1, rest)
        | _ => (1, es)
      if signDigits.2 ≠ [] ∧ signDigits.2.all Char.isDigit then
        some (signDigits.1 *
          ((signDigits.2.map (fun c => c.toNat - 48)).foldl (fun acc d => acc * 10 + d) 0 : ℕ))
      else none
  match mantissa, expVal with
  | some (m, fracLen), some e => some ⟨signRest.1 * m, (fracLen : ℤ) - e⟩
  | _, _ => none

/-- The parsing loop of `TryFrom<State> for Stack` (src/stack.rs):
parse every entry in order, failing the whole load on the first
unparseable entry. -/
def parseAllValues : List String → Option (List BigDecimal)
  | [] => some []
  | v :: rest =>
    match parseBigDecimal v with
    | none => none
    | some d =>
      match parseAllValues rest with
      | none => none
      | some ds => some (d :: ds)

/-- Conversion `TryFrom<State> for Stack` (src/stack.rs): parse all
entries, then build the stack with the record's optional precision. -/
def Stack.tryFromState (value : State) : Option Stack :=
  match parseAllValues value.stack with
  | none => none
  | some values => some (Stack.fromValues values value.precision)

/-- Invariant of `Undoable`: the cursor indexes into the history (which
is therefore nonempty). -/
def Undoable.inv {T : Type} (u : Undoable T) : Prop :=
  u.current < u.history.length

/-- Number of operands an operation pops from the stack. -/
def popCount : Op → ℕ
  | .Push _ => 0
  | .Add | .Subtract | .Multiply | .Divide | .Modulo | .Pow | .Rotate => 2
  | .Sqrt | .Duplicate | .Pop | .Precision => 1
  | .Undo | .Redo => 0

/-- The stack obtained from an empty one by `apply(Push a); apply(Push b)`
at the given display precision. -/
def afterPushPush (a b : BigDecimal) (p : ℕ) : Stack :=
  (((Stack.fromValues [] (some p)).apply (.Push a)).2.apply (.Push b)).2

/-- Ceiling of the division of two positive integers (used to state the
claimed "ceiling share" of the split budget). -/
def ceilDiv (a b : ℤ) : ℤ := Int.tdiv (a + b - 1) b

/-! Helper lemmas about the pop primitives and the dispatcher. -/

theorem prepAndPop2_error_eq {α : Type} (f : BigDecimal → BigDecimal → Except StackError α)
    (s : InstantStack) (e : StackError) (h : (prepAndPop2 f s).1 = .error e) :
    (prepAndPop2 f s).2 = s := by
  rcases hs : s.stack with _ | ⟨x0, _ | ⟨x1, rest⟩⟩ <;> simp [prepAndPop2, hs] at h ⊢
  rcases hf : f x1 x0 with e' | r <;> simp [hf] at h ⊢

theorem prepAndPop1_error_eq {α : Type} (f : BigDecimal → Except StackError α)
    (s : InstantStack) (e : StackError) (h : (prepAndPop1 f s).1 = .error e) :
    (prepAndPop1 f s).2 = s := by
  rcases hs : s.stack with _ | ⟨x0, rest⟩ <;> simp [prepAndPop1, hs] at h ⊢
  rcases hf : f x0 with e' | r <;> simp [hf] at h ⊢

theorem prepAndPop2_cons {α : Type} (f : BigDecimal → BigDecimal → Except StackError α)
    (s : InstantStack) (x0 x1 : BigDecimal) (rest : List BigDecimal)
    (hs : s.stack = x0 :: x1 :: rest) :
    prepAndPop2 f s =
      (match f x1 x0 with
        | .error e => (.error e, s)
        | .ok r => (.ok r, { s with stack := rest })) := by
  simp [prepAndPop2, hs]

theorem prepAndPop1_cons {α : Type} (f : BigDecimal → Except StackError α)
    (s : InstantStack) (x0 : BigDecimal) (rest : List BigDecimal)
    (hs : s.stack = x0 :: rest) :
    prepAndPop1 f s =
      (match f x0 with
        | .error e => (.error e, s)
        | .ok r => (.ok r, { s with stack := rest })) := by
  simp [prepAndPop1, hs]

theorem prepAndPop2_short {α : Type} (f : BigDecimal → BigDecimal → Except StackError α)
    (s : InstantStack) (hs : s.stack.length < 2) :
    prepAndPop2 f s = (.error (.MissingValue 2), s) := by
  rcases hs' : s.stack with _ | ⟨x0, _ | ⟨x1, rest⟩⟩
  · simp [prepAndPop2, hs']
  · simp [prepAndPop2, hs']
  · rw [hs'] at hs; simp at hs; omega

theorem prepAndPop1_short {α : Type} (f : BigDecimal → Except StackError α)
    (s : InstantStack) (hs : s.stack.length < 1) :
    prepAndPop1 f s = (.error (.MissingValue 1), s) := by
  rcases hs' : s.stack with _ | ⟨x0, rest⟩
  · simp [prepAndPop1, hs']
  · rw [hs'] at hs; simp at hs

theorem pop2_cons (s : InstantStack) (x0 x1 : BigDecimal) (rest : List BigDecimal)
    (hs : s.stack = x0 :: x1 :: rest) :
    pop2 s = (.ok (x1, x0), { s with stack := rest }) := by
  simp [pop2, checkAndPop2, prepAndPop2, hs]

theorem pop2_short (s : InstantStack) (hs : s.stack.length < 2) :
    pop2 s = (.error (.MissingValue 2), s) := by
  unfold pop2 checkAndPop2
  exact prepAndPop2_short _ s hs

theorem pop1_cons (s : InstantStack) (x0 : BigDecimal) (rest : List BigDecimal)
    (hs : s.stack = x0 :: rest) :
    pop1 s = (.ok x0, { s with stack := rest }) := by
  simp [pop1, checkAndPop1, prepAndPop1, hs]

theorem pop1_short (s : InstantStack) (hs : s.stack.length < 1) :
    pop1 s = (.error (.MissingValue 1), s) := by
  unfold pop1 checkAndPop1
  exact prepAndPop1_short _ s hs

theorem checkAndPop2_cons (validator : BigDecimal → BigDecimal → Except StackError Unit)
    (s : InstantStack) (x0 x1 : BigDecimal) (rest : List BigDecimal)
    (hs : s.stack = x0 :: x1 :: rest) :
    checkAndPop2 validator s =
      (match validator x1 x0 with
        | .error e => (.error e, s)
        | .ok _ => (.ok (x1, x0), { s with stack := rest })) := by
  unfold checkAndPop2
  rw [prepAndPop2_cons _ s x0 x1 rest hs]
  rcases hv : validator x1 x0 with e | u <;> simp [hv]

theorem checkAndPop1_cons (validator : BigDecimal → Except StackError Unit)
    (s : InstantStack) (x0 : BigDecimal) (rest : List BigDecimal)
    (hs : s.stack = x0 :: rest) :
    checkAndPop1 validator s =
      (match validator x0 with
        | .error e => (.error e, s)
        | .ok _ => (.ok x0, { s with stack := rest })) := by
  unfold checkAndPop1
  rw [prepAndPop1_cons _ s x0 rest hs]
  rcases hv : validator x0 with e | u <;> simp [hv]

theorem apply_eq_of_nonmeta (st : Stack) (op : Op) (h1 : op ≠ Op.Undo) (h2 : op ≠ Op.Redo) :
    st.apply op =
      (match applyOnStack st.stack.cur op with
        | (.ok _, s') => (.ok (), ⟨st.stack.add s'⟩)
        | (.error e, _) => (.error e, st)) := by
  cases op <;> first | rfl | exact absurd rfl h1 | exact absurd rfl h2

/-- C6: `Undoable<T>` keeps `current < len(history)` (history nonempty)
under every operation; `add` truncates to `[0..=current]`, appends and
advances, so a `redo` right after `add` returns false; `undo`/`redo` are
no-ops returning false exactly at the respective boundary, and otherwise
move the cursor by one and return true. -/
theorem C6_undoable_invariants :
    ∀ (T : Type) (u : Undoable T) (v : T), u.inv →
      (Undoable.new v).inv ∧
      (u.add v).inv ∧ u.undo.2.inv ∧ u.redo.2.inv ∧
      (u.add v).history = u.history.take (u.current + 1) ++ [v] ∧
      (u.add v).current = u.current + 1 ∧
      (u.add v).redo = (false, u.add v) ∧
      (u.current = 0 → u.undo = (false, u)) ∧
      (u.current ≠ 0 → u.undo = (true, { u with current := u.current - 1 })) ∧
      (u.current = u.history.length - 1 → u.redo = (false, u)) ∧
      (u.current ≠ u.history.length - 1 →
        u.redo = (true, { u with current := u.current + 1 })) := by
  intro T u v hinv
  have hinv' : u.current < u.history.length := hinv
  refine ⟨?_, ?_, ?_, ?_, rfl, rfl, ?_, ?_, ?_, ?_, ?_⟩
  · simp [Undoable.new, Undoable.inv]
  · simp only [Undoable.add, Undoable.inv, List.length_append, List.length_take,
      List.length_singleton]
    omega
  · unfold Undoable.undo Undoable.inv
    split <;> simp <;> omega
  · unfold Undoable.redo Undoable.inv
    split <;> simp <;> omega
  · unfold Undoable.redo Undoable.add
    rw [if_pos]
    simp only [List.length_append, List.length_take, List.length_singleton]
    omega
  · intro h0
    unfold Undoable.undo
    rw [if_pos h0]
  · intro h0
    unfold Undoable.undo
    rw [if_neg h0]
  · intro hb
    unfold Undoable.redo
    rw [if_pos (by omega)]
  · intro hb
    unfold Undoable.redo
    rw [if_neg (by omega)]

/-- C1: transactional dispatch — for every non-meta operation, an error
leaves the committed `Stack` (snapshot, precision, full history and
cursor) exactly unchanged, while a success commits exactly one new state
via `Undoable::add` (the live prefix of the history plus the single new
`InstantStack`, with the cursor advanced by one); and the
`prep_and_pop`/`check_and_pop` primitives leave the sequence unmodified
whenever the transform/validator fails (no partial drain). -/
theorem C1_apply_transactional :
    ∀ (st : Stack) (op : Op), op ≠ Op.Undo → op ≠ Op.Redo →
      (∀ e st', st.apply op = (.error e, st') →
        st' = st ∧ st'.snapshot = st.snapshot ∧ st'.precision = st.precision ∧
        st'.stack.history = st.stack.history ∧ st'.stack.current = st.stack.current) ∧
      (∀ st', st.apply op = (.ok (), st') →
        st'.stack.history = st.stack.history.take (st.stack.current + 1) ++
          [(applyOnStack st.stack.cur op).2] ∧
        st'.stack.current = st.stack.current + 1) ∧
      (∀ (α : Type) (f : BigDecimal → BigDecimal → Except StackError α)
          (s : InstantStack) (e : StackError),
        (prepAndPop2 f s).1 = .error e → (prepAndPop2 f s).2 = s) ∧
      (∀ (α : Type) (f : BigDecimal → Except StackError α)
          (s : InstantStack) (e : StackError),
        (prepAndPop1 f s).1 = .error e → (prepAndPop1 f s).2 = s) ∧
      (∀ (validator : BigDecimal → BigDecimal → Except StackError Unit)
          (s : InstantStack) (e : StackError),
        (checkAndPop2 validator s).1 = .error e → (checkAndPop2 validator s).2 = s) ∧
      (∀ (validator : BigDecimal → Except StackError Unit)
          (s : InstantStack) (e : StackError),
        (checkAndPop1 validator s).1 = .error e → (checkAndPop1 validator s).2 = s) := by
  intro st op h1 h2
  have hdisp := apply_eq_of_nonmeta st op h1 h2
  refine ⟨?_, ?_, ?_, ?_, ?_, ?_⟩
  · intro e st' happly
    rw [hdisp] at happly
    rcases happ : applyOnStack st.stack.cur op with ⟨r, s2⟩
    rcases r with e' | u
    · rw [happ] at happly
      simp only [Prod.mk.injEq] at happly
      have hst : st' = st := happly.2.symm
      subst hst
      exact ⟨rfl, rfl, rfl, rfl, rfl⟩
    · rw [happ] at happly
      simp at happly
  · intro st' happly
    rw [hdisp] at happly
    rcases happ : applyOnStack st.stack.cur op with ⟨r, s2⟩
    rcases r with e' | u
    · rw [happ] at happly
      simp at happly
    · rw [happ] at happly
      simp only [Prod.mk.injEq] at happly
      have hst : st' = ⟨st.stack.add s2⟩ := happly.2.symm
      subst hst
      exact ⟨rfl, rfl⟩
  · exact fun α f s e h => prepAndPop2_error_eq f s e h
  · exact fun α f s e h => prepAndPop1_error_eq f s e h
  · intro validator s e h
    unfold checkAndPop2 at h ⊢
    exact prepAndPop2_error_eq _ s e h
  · intro validator s e h
    unfold checkAndPop1 at h ⊢
    exact prepAndPop1_error_eq _ s e h

/-- C10: frame property of `apply_on_stack` — every successful non-meta
operation only replaces the top `popCount op` elements by its results:
everything below survives in order, the precision survives except under
`Precision`, and `Push`/`Duplicate` leave every existing element in
place. -/
theorem C10_frame_property :
    ∀ (s : InstantStack) (op : Op), op ≠ Op.Undo → op ≠ Op.Redo →
      ∀ s', applyOnStack s op = (.ok (), s') →
        (∃ pushed, s'.stack = pushed ++ s.stack.drop (popCount op)) ∧
        (op ≠ Op.Precision → s'.precision = s.precision) ∧
        (∀ v, op = Op.Push v → s'.stack = v :: s.stack) ∧
        (op = Op.Duplicate → ∃ x rest, s.stack = x :: rest ∧ s'.stack = x :: x :: rest) := by
  intro s op h1 h2 s' h
  cases op
  case Undo => exact absurd rfl h1
  case Redo => exact absurd rfl h2
  case Push v =>
    simp only [applyOnStack, Prod.mk.injEq, true_and] at h
    subst h
    exact ⟨⟨[v], by simp [InstantStack.push_front, popCount]⟩, fun _ => rfl,
      fun w hw => by cases hw; rfl, by simp⟩
  case Add =>
    rcases hs : s.stack with _ | ⟨x0, _ | ⟨x1, rest⟩⟩
    · rw [applyOnStack, pop2_short s (by simp [hs])] at h; simp at h
    · rw [applyOnStack, pop2_short s (by simp [hs])] at h; simp at h
    · rw [applyOnStack, pop2_cons s x0 x1 rest hs] at h
      simp only [Prod.mk.injEq, true_and] at h
      subst h
      exact ⟨⟨[addBD x1 x0], by simp [InstantStack.push_front, popCount, hs]⟩,
        fun _ => rfl, by simp, by simp⟩
  case Subtract =>
    rcases hs : s.stack with _ | ⟨x0, _ | ⟨x1, rest⟩⟩
    · rw [applyOnStack, pop2_short s (by simp [hs])] at h; simp at h
    · rw [applyOnStack, pop2_short s (by simp [hs])] at h; simp at h
    · rw [applyOnStack, pop2_cons s x0 x1 rest hs] at h
      simp only [Prod.mk.injEq, true_and] at h
      subst h
      exact ⟨⟨[subBD x1 x0], by simp [InstantStack.push_front, popCount, hs]⟩,
        fun _ => rfl, by simp, by simp⟩
  case Multiply =>
    rcases hs : s.stack with _ | ⟨x0, _ | ⟨x1, rest⟩⟩
    · rw [applyOnStack, pop2_short s (by simp [hs])] at h; simp at h
    · rw [applyOnStack, pop2_short s (by simp [hs])] at h; simp at h
    · rw [applyOnStack, pop2_cons s x0 x1 rest hs] at h
      simp only [Prod.mk.injEq, true_and] at h
      subst h
      exact ⟨⟨[mulBD x1 x0], by simp [InstantStack.push_front, popCount, hs]⟩,
        fun _ => rfl, by simp, by simp⟩
  case Modulo =>
    rcases hs : s.stack with _ | ⟨x0, _ | ⟨x1, rest⟩⟩
    · rw [applyOnStack, pop2_short s (by simp [hs])] at h; simp at h
    · rw [applyOnStack, pop2_short s (by simp [hs])] at h; simp at h
    · rw [applyOnStack, pop2_cons s x0 x1 rest hs] at h
      simp only [Prod.mk.injEq, true_and] at h
      subst h
      exact ⟨⟨[remBD x1 x0], by simp [InstantStack.push_front, popCount, hs]⟩,
        fun _ => rfl, by simp, by simp⟩
  case Rotate =>
    rcases hs : s.stack with _ | ⟨x0, _ | ⟨x1, rest⟩⟩
    · rw [applyOnStack, pop2_short s (by simp [hs])] at h; simp at h
    · rw [applyOnStack, pop2_short s (by simp [hs])] at h; simp at h
    · rw [applyOnStack, pop2_cons s x0 x1 rest hs] at h
      simp only [Prod.mk.injEq, true_and] at h
      subst h
      exact ⟨⟨[x1, x0], by simp [InstantStack.push_front, popCount, hs]⟩,
        fun _ => rfl, by simp, by simp⟩
  case Divide =>
    rcases hs : s.stack with _ | ⟨x0, _ | ⟨x1, rest⟩⟩
    · rw [applyOnStack] at h
      rw [show checkAndPop2 _ s = (.error (.MissingValue 2), s) from
        prepAndPop2_short _ s (by simp [hs])] at h
      simp at h
    · rw [applyOnStack] at h
      rw [show checkAndPop2 _ s = (.error (.MissingValue 2), s) from
        prepAndPop2_short _ s (by simp [hs])] at h
      simp at h
    · rw [applyOnStack, checkAndPop2_cons divideValidator s x0 x1 rest hs] at h
      unfold divideValidator at h
      by_cases hz : x0.veq BigDecimal.zero
      · rw [if_pos hz] at h; simp at h
      · rw [if_neg hz] at h
        simp only [Prod.mk.injEq, true_and] at h
        subst h
        exact ⟨⟨[divBD x1 x0], by simp [InstantStack.push_front, popCount, hs]⟩,
          fun _ => rfl, by simp, by simp⟩
  case Sqrt =>
    rcases hs : s.stack with _ | ⟨x0, rest⟩
    · rw [applyOnStack] at h
      rw [show checkAndPop1 _ s = (.error (.MissingValue 1), s) from
        prepAndPop1_short _ s (by simp [hs])] at h
      simp at h
    · rw [applyOnStack, checkAndPop1_cons sqrtValidator s x0 rest hs] at h
      unfold sqrtValidator at h
      by_cases hz : x0.vlt BigDecimal.zero
      · rw [if_pos hz] at h; simp at h
      · rw [if_neg hz] at h
        simp only [Prod.mk.injEq, true_and] at h
        subst h
        exact ⟨⟨[sqrtBD x0], by simp [InstantStack.push_front, popCount, hs]⟩,
          fun _ => rfl, by simp, by simp⟩
  case Pow =>
    rcases hs : s.stack with _ | ⟨x0, _ | ⟨x1, rest⟩⟩
    · rw [applyOnStack, prepAndPop2_short _ s (by simp [hs])] at h; simp at h
    · rw [applyOnStack, prepAndPop2_short _ s (by simp [hs])] at h; simp at h
    · rw [applyOnStack, prepAndPop2_cons _ s x0 x1 rest hs] at h
      rcases hp : powPrep x1 x0 with e | ⟨a0, b0⟩
      · rw [hp] at h; simp at h
      · rw [hp] at h
        simp only [Prod.mk.injEq, true_and] at h
        subst h
        exact ⟨⟨[fromBigInt (a0 ^ b0.toNat) 0],
            by simp [InstantStack.push_front, popCount, hs]⟩,
          fun _ => rfl, by simp, by simp⟩
  case Duplicate =>
    rcases hs : s.stack with _ | ⟨x0, rest⟩
    · rw [applyOnStack, pop1_short s (by simp [hs])] at h; simp at h
    · rw [applyOnStack, pop1_cons s x0 rest hs] at h
      simp only [Prod.mk.injEq, true_and] at h
      subst h
      exact ⟨⟨[x0, x0], by simp [InstantStack.push_front, popCount, hs]⟩,
        fun _ => rfl, by simp,
        fun _ => ⟨x0, rest, by simp [hs], by simp [InstantStack.push_front]⟩⟩
  case Pop =>
    rcases hs : s.stack with _ | ⟨x0, rest⟩
    · rw [applyOnStack, pop1_short s (by simp [hs])] at h; simp at h
    · rw [applyOnStack, pop1_cons s x0 rest hs] at h
      simp only [Prod.mk.injEq, true_and] at h
      subst h
      exact ⟨⟨[], by simp [popCount, hs]⟩, fun _ => rfl, by simp, by simp⟩
  case Precision =>
    rcases hs : s.stack with _ | ⟨x0, rest⟩
    · rw [applyOnStack] at h
      rw [show checkAndPop1 _ s = (.error (.MissingValue 1), s) from
        prepAndPop1_short _ s (by simp [hs])] at h
      simp at h
    · rw [applyOnStack, checkAndPop1_cons precisionValidator s x0 rest hs] at h
      unfold precisionValidator at h
      by_cases hz : x0.vle BigDecimal.zero ∨
          (⟨(2 : ℤ) ^ 63 - 1, 0⟩ : BigDecimal).vlt x0 ∨ ¬ x0.isInteger
      · rw [if_pos hz] at h; simp at h
      · rw [if_neg hz] at h
        simp only [Prod.mk.injEq, true_and] at h
        subst h
        exact ⟨⟨[], by simp [popCount, hs]⟩, fun hP => absurd rfl hP, by simp, by simp⟩

/-- C10 witness: instantiation at `Add` on the stack `[3, 4, 5]` —
the successful addition leaves the below-top element `5` untouched. -/
theorem C10_witness :
    (∃ pushed, (applyOnStack ⟨[⟨3, 0⟩, ⟨4, 0⟩, ⟨5, 0⟩], 12⟩ .Add).2.stack =
      pushed ++ ([⟨3, 0⟩, ⟨4, 0⟩, ⟨5, 0⟩] : List BigDecimal).drop (popCount .Add)) ∧
    (applyOnStack ⟨[⟨3, 0⟩, ⟨4, 0⟩, ⟨5, 0⟩], 12⟩ .Add).2.precision = 12 := by
  have h := C10_frame_property ⟨[⟨3, 0⟩, ⟨4, 0⟩, ⟨5, 0⟩], 12⟩ .Add (by decide) (by decide)
    (applyOnStack ⟨[⟨3, 0⟩, ⟨4, 0⟩, ⟨5, 0⟩], 12⟩ .Add).2 (by decide)
  exact ⟨h.1, h.2.1 (by decide)⟩

/-- C6 witness: the invariants applied to the fresh history `[0]` with a
new state `1` — after `add`, a `redo` returns false. -/
theorem C6_witness :
    ((Undoable.new (0 : ℕ)).add 1).history = [0, 1] ∧
    ((Undoable.new (0 : ℕ)).add 1).redo = (false, (Undoable.new (0 : ℕ)).add 1) ∧
    (Undoable.new (0 : ℕ)).undo = (false, Undoable.new (0 : ℕ)) := by
  have h := C6_undoable_invariants ℕ (Undoable.new 0) 1
    (show 0 < 1 by decide)
  exact ⟨by decide, h.2.2.2.2.2.2.1, h.2.2.2.2.2.2.2.1 rfl⟩

/-- C5: `Modulo` succeeds on every stack with at least two elements and
pushes `a mod b` — also when the top operand is zero (in the
spec-modelled remainder `a mod 0 = a`); its only failure is
`MissingValue 2` exactly when fewer than two elements exist, and every
`apply` call returns an ordinary value (ok or a recoverable error). -/
theorem C5_modulo_always_succeeds :
    (∀ (s : InstantStack) (x0 x1 : BigDecimal) (rest : List BigDecimal),
      s.stack = x0 :: x1 :: rest →
      applyOnStack s .Modulo = (.ok (), { s with stack := remBD x1 x0 :: rest })) ∧
    (∀ s : InstantStack, s.stack.length < 2 →
      applyOnStack s .Modulo = (.error (.MissingValue 2), s)) ∧
    (∀ (s : InstantStack) (e : StackError),
      (applyOnStack s .Modulo).1 = .error e → e = .MissingValue 2 ∧ s.stack.length < 2) ∧
    (applyOnStack ⟨[⟨0, 0⟩, ⟨7, 0⟩], 12⟩ .Modulo = (.ok (), ⟨[⟨7, 0⟩], 12⟩)) ∧
    (∀ (st : Stack) (op : Op), (st.apply op).1 = .ok () ∨ ∃ e, (st.apply op).1 = .error e) := by
  refine ⟨?_, ?_, ?_, by decide, ?_⟩
  · intro s x0 x1 rest hs
    rw [applyOnStack, pop2_cons s x0 x1 rest hs]
    rfl
  · intro s hlen
    rw [applyOnStack, pop2_short s hlen]
  · intro s e h
    rcases hs : s.stack with _ | ⟨x0, _ | ⟨x1, rest⟩⟩
    · rw [applyOnStack, pop2_short s (by simp [hs])] at h
      simp at h
      exact ⟨h.symm, by simp [hs]⟩
    · rw [applyOnStack, pop2_short s (by simp [hs])] at h
      simp at h
      exact ⟨h.symm, by simp [hs]⟩
    · rw [applyOnStack, pop2_cons s x0 x1 rest hs] at h
      simp at h
  · intro st op
    rcases h : (st.apply op).1 with e | u
    · exact .inr ⟨e, rfl⟩
    · exact .inl rfl

/-- C5 witness: the general clause applied to the concrete stack
`[0, 7]` — `7 mod 0` succeeds and pushes `7`. -/
theorem C5_witness :
    applyOnStack ⟨[⟨0, 0⟩, ⟨7, 0⟩], 12⟩ .Modulo =
      (.ok (), ⟨[remBD ⟨7, 0⟩ ⟨0, 0⟩], 12⟩) :=
  C5_modulo_always_succeeds.1 ⟨[⟨0, 0⟩, ⟨7, 0⟩], 12⟩ ⟨0, 0⟩ ⟨7, 0⟩ [] rfl

/-- C3 counterexample: `Push(10); Push(2); Pow` stores the result with
unscaled integer 100 and scale 0 — not unscaled 1 and scale −2 as the
claim states (this matches the repository's own `pow_representation`
test). -/
theorem C3_counterexample :
    ((afterPushPush ⟨10, 0⟩ ⟨2, 0⟩ 12).apply .Pow).2.stack.cur.stack = [⟨100, 0⟩] ∧
    (100 : ℤ) ≠ 1 ∧ (0 : ℤ) ≠ -2 := by
  refine ⟨by decide, by decide, by decide⟩

/-- C3 (amended): `Pow` performs no normalization — on success it pushes
the decimal `(a0 ^ b0, scale 0)` built by `from_bigint`, where `a0`, `b0`
are the scale-flushed unscaled integers of the operands; in particular
`Push(10); Push(2); Pow` stores `(100, 0)`, and `10^100` is stored with
all its digits as `(10^100, 0)`. -/
theorem C3_pow_zero_scale :
    (∀ (s : InstantStack) (x0 x1 : BigDecimal) (rest : List BigDecimal) (a0 b0 : ℤ),
      s.stack = x0 :: x1 :: rest → powPrep x1 x0 = .ok (a0, b0) →
      applyOnStack s .Pow = (.ok (), { s with stack := ⟨a0 ^ b0.toNat, 0⟩ :: rest }) ∧
      a0 = (x1.withScale 0).intVal ∧ b0 = (x0.withScale 0).intVal) ∧
    ((afterPushPush ⟨10, 0⟩ ⟨2, 0⟩ 12).apply .Pow).2.stack.cur.stack = [⟨100, 0⟩] ∧
    (fromBigInt ((10 : ℤ) ^ 100) 0).intVal = 10 ^ 100 ∧
    (fromBigInt ((10 : ℤ) ^ 100) 0).scale = 0 := by
  refine ⟨?_, by decide, rfl, rfl⟩
  intro s x0 x1 rest a0 b0 hs hp
  constructor
  · rw [applyOnStack, prepAndPop2_cons powPrep s x0 x1 rest hs, hp]
    rfl
  · unfold powPrep at hp
    split at hp
    · simp at hp
    · split at hp
      · simp at hp
      · split at hp
        · simp at hp
        · simp only [Except.ok.injEq, Prod.mk.injEq] at hp
          exact ⟨hp.1.symm, hp.2.symm⟩

/-- C3 witness: the amended clause applied to the concrete operands
`10` and `2` on the stack `[2, 10]`. -/
theorem C3_witness :
    applyOnStack ⟨[⟨2, 0⟩, ⟨10, 0⟩], 12⟩ .Pow =
      (.ok (), ⟨[⟨(10 : ℤ) ^ (2 : ℤ).toNat, 0⟩], 12⟩) :=
  (C3_pow_zero_scale.1 ⟨[⟨2, 0⟩, ⟨10, 0⟩], 12⟩ ⟨2, 0⟩ ⟨10, 0⟩ [] 10 2 rfl (by decide)).1

theorem parseAll_some_iff (l : List String) :
    (∃ ds, parseAllValues l = some ds) ↔ ∀ v ∈ l, (parseBigDecimal v).isSome := by
  induction l with
  | nil => simp [parseAllValues]
  | cons v rest ih =>
    simp only [parseAllValues, List.mem_cons]
    rcases hv : parseBigDecimal v with _ | d
    · constructor
      · rintro ⟨ds, hds⟩; simp at hds
      · intro hall
        have := hall v (.inl rfl)
        rw [hv] at this
        simp at this
    · rcases hr : parseAllValues rest with _ | ds
      · constructor
        · rintro ⟨ds, hds⟩; simp at hds
        · intro hall
          have : ∀ w ∈ rest, (parseBigDecimal w).isSome :=
            fun w hw => hall w (.inr hw)
          rcases ih.mpr this with ⟨ds, hds⟩
          rw [hds] at hr
          cases hr
      · constructor
        · rintro ⟨ds', hds⟩
          intro w hw
          rcases hw with hw | hw
          · subst hw; rw [hv]; rfl
          · exact (ih.mp ⟨ds, hr⟩) w hw
        · intro _
          exact ⟨d :: ds, rfl⟩

theorem parseAll_forall₂ (l : List String) (ds : List BigDecimal)
    (h : parseAllValues l = some ds) :
    List.Forall₂ (fun sv d => parseBigDecimal sv = some d) l ds := by
  induction l generalizing ds with
  | nil =>
    simp only [parseAllValues, Option.some.injEq] at h
    subst h
    exact .nil
  | cons v rest ih =>
    simp only [parseAllValues] at h
    rcases hv : parseBigDecimal v with _ | d
    · rw [hv] at h; cases h
    · rw [hv] at h
      rcases hr : parseAllValues rest with _ | ds'
      · rw [hr] at h; cases h
      · rw [hr] at h
        simp only [Option.some.injEq] at h
        subst h
        exact .cons hv (ih ds' hr)

/-- C9: `Stack::from` keeps the given values in order and uses precision
12 when none is supplied (and the supplied one verbatim otherwise);
loading a persisted record parses every entry as an exact decimal and
yields a stack exactly when every entry parses — a single unparseable
entry fails the whole load, so no partially-loaded stack exists. -/
theorem C9_construction_and_load :
    (∀ values : List BigDecimal,
      (Stack.fromValues values none).precision = 12 ∧
      (Stack.fromValues values none).stack.cur.stack = values) ∧
    (∀ (values : List BigDecimal) (p : ℕ),
      (Stack.fromValues values (some p)).precision = p) ∧
    (∀ st : State,
      ((∃ stk, Stack.tryFromState st = some stk) ↔
        ∀ v ∈ st.stack, (parseBigDecimal v).isSome) ∧
      (∀ stk, Stack.tryFromState st = some stk →
        List.Forall₂ (fun sv d => parseBigDecimal sv = some d) st.stack stk.stack.cur.stack ∧
        stk.precision = st.precision.getD 12)) := by
  refine ⟨fun values => ⟨rfl, rfl⟩, fun values p => rfl, fun st => ⟨?_, ?_⟩⟩
  · unfold Stack.tryFromState
    rcases hr : parseAllValues st.stack with _ | ds
    · simp only [hr]
      constructor
      · rintro ⟨stk, hstk⟩; cases hstk
      · intro hall
        rcases (parseAll_some_iff st.stack).mpr hall with ⟨ds, hds⟩
        rw [hds] at hr; cases hr
    · simp only [hr]
      constructor
      · intro _; exact (parseAll_some_iff st.stack).mp ⟨ds, hr⟩
      · intro _; exact ⟨Stack.fromValues ds st.precision, rfl⟩
  · intro stk hstk
    unfold Stack.tryFromState at hstk
    rcases hr : parseAllValues st.stack with _ | ds
    · rw [hr] at hstk; cases hstk
    · rw [hr] at hstk
      simp only [Option.some.injEq] at hstk
      subst hstk
      refine ⟨parseAll_forall₂ st.stack ds hr, ?_⟩
      cases st.precision <;> rfl

/-- C9 witness: loading the record `{stack: ["12", "-1E-5"], precision:
none}` succeeds with the parsed values, default precision 12; the record
`{stack: ["12", "x"], precision: some 3}` fails to load. -/
theorem C9_witness :
    (∃ stk, Stack.tryFromState ⟨["12", "-1E-5"], none⟩ = some stk) ∧
    (Stack.fromValues [⟨7, 0⟩] none).precision = 12 ∧
    ¬ (∃ stk, Stack.tryFromState ⟨["12", "x"], some 3⟩ = some stk) := by
  refine ⟨?_, (C9_construction_and_load.1 [⟨7, 0⟩]).1, ?_⟩
  · exact ((C9_construction_and_load.2.2 ⟨["12", "-1E-5"], none⟩).1).mpr (by decide)
  · intro hex
    have := ((C9_construction_and_load.2.2 ⟨["12", "x"], some 3⟩).1).mp hex
    have hx := this "x" (by simp)
    simp [parseBigDecimal] at hx

/-- C4 (bug evidence): `Stack::snapshot` compares `scale as u64 >
precision`, so a negative scale (here −2, i.e. the value 100 stored as
`(1, −2)`) wraps to 2^64 − 2, exceeds the precision 12, and the value is
re-scaled to `(10^14, 12)` — padded with trailing zeros — although its
scale fits the precision; only the numerical value survives.  The claim
(and the code's own comment) says such a value is returned unchanged. -/
theorem C4_snapshot_wraps_negative_scale :
    (Stack.fromValues [⟨1, -2⟩] none).snapshot = [⟨100000000000000, 12⟩] ∧
    (⟨100000000000000, 12⟩ : BigDecimal) ≠ ⟨1, -2⟩ ∧
    (⟨100000000000000, 12⟩ : BigDecimal).veq ⟨1, -2⟩ ∧
    (-2 : ℤ) ≤ 12 ∧ i64AsU64 (-2) = 2 ^ 64 - 2 := by
  refine ⟨by decide, by decide, by decide, by decide, by decide⟩

/-- C2 counterexample: from the empty stack, `Push(10^-13); Push(0); Add`
yields `snapshot() = [0 at scale 12]` (the snapshot truncates the sum's
scale-13 representation to the display precision 12), which is not
value-equal to `[a+b] = [10^-13]`; so `snapshot() == [a+b]` fails as
universally stated. -/
theorem C2_counterexample :
    ((afterPushPush ⟨1, 13⟩ ⟨0, 0⟩ 12).apply .Add).1 = .ok () ∧
    ((afterPushPush ⟨1, 13⟩ ⟨0, 0⟩ 12).apply .Add).2.snapshot = [⟨0, 12⟩] ∧
    addBD ⟨1, 13⟩ ⟨0, 0⟩ = ⟨1, 13⟩ ∧
    ¬ vecEqBD [⟨0, 12⟩] [⟨1, 13⟩] := by
  refine ⟨by decide, by decide, by decide, ?_⟩
  intro h
  rcases h with _ | ⟨h1, _⟩
  exact absurd h1 (by decide)

theorem apply_fst_eq (st : Stack) (op : Op) (h1 : op ≠ Op.Undo) (h2 : op ≠ Op.Redo) :
    (st.apply op).1 = (applyOnStack st.stack.cur op).1 := by
  rw [apply_eq_of_nonmeta st op h1 h2]
  rcases happ : applyOnStack st.stack.cur op with ⟨r, s2⟩
  rcases r with e | u
  · rfl
  · cases u; rfl

theorem applyOnStack_pop2_fst (s : InstantStack) (op : Op)
    (hop : op = Op.Add ∨ op = Op.Subtract ∨ op = Op.Multiply ∨ op = Op.Modulo ∨
      op = Op.Rotate) :
    (applyOnStack s op).1 =
      if s.stack.length < 2 then .error (.MissingValue 2) else .ok () := by
  by_cases hlen : s.stack.length < 2
  · rw [if_pos hlen]
    rcases hop with h | h | h | h | h <;> subst h <;>
      rw [applyOnStack, pop2_short s hlen]
  · rw [if_neg hlen]
    rcases hs : s.stack with _ | ⟨x0, _ | ⟨x1, rest⟩⟩
    · exact absurd (by simp [hs]) hlen
    · exact absurd (by simp [hs]) hlen
    · rcases hop with h | h | h | h | h <;> subst h <;>
        rw [applyOnStack, pop2_cons s x0 x1 rest hs]

theorem applyOnStack_divide_fst (s : InstantStack) :
    (applyOnStack s .Divide).1 =
      if s.stack.length < 2 then .error (.MissingValue 2)
      else if (s.stack.getD 0 BigDecimal.zero).veq BigDecimal.zero then
        .error (.InvalidArgument "element 1 must be non-zero")
      else .ok () := by
  rcases hs : s.stack with _ | ⟨x0, _ | ⟨x1, rest⟩⟩
  · rw [applyOnStack,
      show checkAndPop2 divideValidator s = (.error (.MissingValue 2), s) from
        prepAndPop2_short _ s (by simp [hs])]
    rw [if_pos (by simp [hs])]
  · rw [applyOnStack,
      show checkAndPop2 divideValidator s = (.error (.MissingValue 2), s) from
        prepAndPop2_short _ s (by simp [hs])]
    rw [if_pos (by simp [hs])]
  · rw [applyOnStack, checkAndPop2_cons divideValidator s x0 x1 rest hs]
    rw [if_neg (by simp [hs])]
    unfold divideValidator
    by_cases hz : x0.veq BigDecimal.zero
    · rw [if_pos hz, if_pos (by simp [hs]; exact hz)]
    · rw [if_neg hz, if_neg (by simp [hs]; exact hz)]

/-- C2 (amended): starting from the empty stack, `Push(a); Push(b)`
followed by a binary operation succeeds and the committed stack holds
exactly `a OP b` computed from `a` beneath `b`; `snapshot()` returns that
result with its scale capped at the precision, and equals `[a OP b]`
(crate `Vec` equality, i.e. value equality) whenever the capping
preserves the value — e.g. whenever the result's scale already fits the
precision.  `Divide` instead fails with `InvalidArgument` and leaves the
stack untouched exactly when `b == 0`.  On every stack, these operations
fail with `MissingValue(2)` iff fewer than two elements exist, and (at
depth ≥ 2) `Divide` fails iff the top operand is zero. -/
theorem C2_binary_ops_amended :
    (∀ (a b : BigDecimal) (p : ℕ),
      (afterPushPush a b p).stack.cur = ⟨[b, a], p⟩ ∧
      (((afterPushPush a b p).apply .Add).1 = .ok () ∧
        ((afterPushPush a b p).apply .Add).2.snapshot = [scaleCap p (addBD a b)] ∧
        ((scaleCap p (addBD a b)).veq (addBD a b) →
          vecEqBD (((afterPushPush a b p).apply .Add).2.snapshot) [addBD a b])) ∧
      (((afterPushPush a b p).apply .Subtract).1 = .ok () ∧
        ((afterPushPush a b p).apply .Subtract).2.snapshot = [scaleCap p (subBD a b)] ∧
        ((scaleCap p (subBD a b)).veq (subBD a b) →
          vecEqBD (((afterPushPush a b p).apply .Subtract).2.snapshot) [subBD a b])) ∧
      (((afterPushPush a b p).apply .Multiply).1 = .ok () ∧
        ((afterPushPush a b p).apply .Multiply).2.snapshot = [scaleCap p (mulBD a b)] ∧
        ((scaleCap p (mulBD a b)).veq (mulBD a b) →
          vecEqBD (((afterPushPush a b p).apply .Multiply).2.snapshot) [mulBD a b])) ∧
      (((afterPushPush a b p).apply .Modulo).1 = .ok () ∧
        ((afterPushPush a b p).apply .Modulo).2.snapshot = [scaleCap p (remBD a b)] ∧
        ((scaleCap p (remBD a b)).veq (remBD a b) →
          vecEqBD (((afterPushPush a b p).apply .Modulo).2.snapshot) [remBD a b])) ∧
      (¬ b.veq BigDecimal.zero →
        ((afterPushPush a b p).apply .Divide).1 = .ok () ∧
        ((afterPushPush a b p).apply .Divide).2.snapshot = [scaleCap p (divBD a b)] ∧
        ((scaleCap p (divBD a b)).veq (divBD a b) →
          vecEqBD (((afterPushPush a b p).apply .Divide).2.snapshot) [divBD a b])) ∧
      (b.veq BigDecimal.zero →
        (afterPushPush a b p).apply .Divide =
          (.error (.InvalidArgument "element 1 must be non-zero"), afterPushPush a b p))) ∧
    (∀ (st : Stack) (op : Op),
      op = Op.Add ∨ op = Op.Subtract ∨ op = Op.Multiply ∨ op = Op.Modulo →
      (((st.apply op).1 = .error (.MissingValue 2)) ↔ st.stack.cur.stack.length < 2) ∧
      ((∃ e, (st.apply op).1 = .error e) ↔ st.stack.cur.stack.length < 2)) ∧
    (∀ st : Stack,
      (((st.apply .Divide).1 = .error (.MissingValue 2)) ↔
        st.stack.cur.stack.length < 2)) ∧
    (∀ (st : Stack) (x0 x1 : BigDecimal) (rest : List BigDecimal),
      st.stack.cur.stack = x0 :: x1 :: rest →
      (((st.apply .Divide).1 =
        .error (.InvalidArgument "element 1 must be non-zero")) ↔
        x0.veq BigDecimal.zero)) := by
  refine ⟨?_, ?_, ?_, ?_⟩
  · intro a b p
    refine ⟨rfl, ⟨rfl, rfl, ?_⟩, ⟨rfl, rfl, ?_⟩, ⟨rfl, rfl, ?_⟩, ⟨rfl, rfl, ?_⟩, ?_, ?_⟩
    · intro hpres
      exact .cons hpres .nil
    · intro hpres
      exact .cons hpres .nil
    · intro hpres
      exact .cons hpres .nil
    · intro hpres
      exact .cons hpres .nil
    · intro hb
      have hd := apply_eq_of_nonmeta (afterPushPush a b p) .Divide (by decide) (by decide)
      have hc : checkAndPop2 divideValidator (afterPushPush a b p).stack.cur =
          (.ok (a, b), ⟨[], p⟩) := by
        rw [checkAndPop2_cons divideValidator _ b a [] rfl]
        unfold divideValidator
        rw [if_neg hb]
        rfl
      have happ : applyOnStack (afterPushPush a b p).stack.cur .Divide =
          (.ok (), ⟨[divBD a b], p⟩) := by
        rw [applyOnStack, hc]
        rfl
      rw [hd, happ]
      exact ⟨rfl, rfl, fun hpres => .cons hpres .nil⟩
    · intro hb
      have hd := apply_eq_of_nonmeta (afterPushPush a b p) .Divide (by decide) (by decide)
      have hc : checkAndPop2 divideValidator (afterPushPush a b p).stack.cur =
          (.error (.InvalidArgument "element 1 must be non-zero"), (afterPushPush a b p).stack.cur) := by
        rw [checkAndPop2_cons divideValidator _ b a [] rfl]
        unfold divideValidator
        rw [if_pos hb]
      have happ : applyOnStack (afterPushPush a b p).stack.cur .Divide =
          (.error (.InvalidArgument "element 1 must be non-zero"),
            (afterPushPush a b p).stack.cur) := by
        rw [applyOnStack, hc]
      rw [hd, happ]
  · intro st op hop
    have h1 : op ≠ Op.Undo := by rcases hop with h | h | h | h <;> subst h <;> decide
    have h2 : op ≠ Op.Redo := by rcases hop with h | h | h | h <;> subst h <;> decide
    rw [apply_fst_eq st op h1 h2,
      applyOnStack_pop2_fst st.stack.cur op (by tauto)]
    by_cases hlen : st.stack.cur.stack.length < 2
    · rw [if_pos hlen]
      exact ⟨by simp [hlen], by simp [hlen]⟩
    · rw [if_neg hlen]
      constructor
      · constructor
        · intro h; cases h
        · intro h; exact absurd h hlen
      · constructor
        · rintro ⟨e, he⟩; cases he
        · intro h; exact absurd h hlen
  · intro st
    rw [apply_fst_eq st .Divide (by decide) (by decide),
      applyOnStack_divide_fst st.stack.cur]
    by_cases hlen : st.stack.cur.stack.length < 2
    · rw [if_pos hlen]
      simp [hlen]
    · rw [if_neg hlen]
      by_cases hz : (st.stack.cur.stack.getD 0 BigDecimal.zero).veq BigDecimal.zero
      · rw [if_pos hz]
        constructor
        · intro h; cases h
        · intro h; exact absurd h hlen
      · rw [if_neg hz]
        constructor
        · intro h; cases h
        · intro h; exact absurd h hlen
  · intro st x0 x1 rest hs
    rw [apply_fst_eq st .Divide (by decide) (by decide),
      applyOnStack_divide_fst st.stack.cur]
    rw [if_neg (by simp [hs]), hs]
    by_cases hz : x0.veq BigDecimal.zero
    · rw [if_pos (by simpa using hz)]
      simp [hz]
    · rw [if_neg (by simpa using hz)]
      constructor
      · intro h; cases h
      · intro h; exact absurd (by simpa using h) hz

/-- C2 witness: the amended laws applied at `a = 10`, `b = 3`, precision
12 — `Add` gives `snapshot() == [13]`; and `Divide` by zero at `a = 20`,
`b = 0` produces the `InvalidArgument` error without touching the
stack. -/
theorem C2_witness :
    vecEqBD (((afterPushPush ⟨10, 0⟩ ⟨3, 0⟩ 12).apply .Add).2.snapshot)
      [addBD ⟨10, 0⟩ ⟨3, 0⟩] ∧
    (afterPushPush ⟨20, 0⟩ ⟨0, 0⟩ 12).apply .Divide =
      (.error (.InvalidArgument "element 1 must be non-zero"),
        afterPushPush ⟨20, 0⟩ ⟨0, 0⟩ 12) := by
  have h := C2_binary_ops_amended.1 ⟨10, 0⟩ ⟨3, 0⟩ 12
  have h2 := C2_binary_ops_amended.1 ⟨20, 0⟩ ⟨0, 0⟩ 12
  exact ⟨h.2.1.2.2 (by decide), h2.2.2.2.2.2.2 (by decide)⟩

/-- C8 counterexample: at the decimal 12345678.34567 and width 9 the
split layout is reached with budget 5 and parts 3; the most-significant
segment `123` receives 3 characters, while the claimed ceiling share is
⌈5/3⌉ = 2. -/
theorem C8_counterexample :
    format_number ⟨1234567834567, 5⟩ 9 false =
      ['1', '2', '3', '~', '8', '~', '8', '.', '3'] ∧
    budgetOf ⟨1234567834567, 5⟩ 9 (reprOf ⟨1234567834567, 5⟩) = 5 ∧
    partsOf (reprOf ⟨1234567834567, 5⟩) = 3 ∧
    splitShares 5 3 = (3, 1) ∧
    ceilDiv 5 3 = 2 ∧ (3 : ℤ) ≠ 2 := by
  refine ⟨by decide, by decide, by decide, by decide, by decide, by decide⟩

/-- C8 (amended): the split gives the most-significant segment
`budget/parts + budget%parts` and every other segment `budget/parts`;
the shares always exhaust the budget, the MSB share is the ceiling
⌈budget/parts⌉ whenever the remainder is at most 1 — in particular
always when parts = 2 — but is the ceiling plus one when parts = 3 and
budget ≡ 2 (mod 3). -/
theorem C8_split_shares_amended :
    ∀ budget parts : ℤ, (parts = 2 ∨ parts = 3) → parts ≤ budget →
      splitShares budget parts =
        (Int.tdiv budget parts + Int.tmod budget parts, Int.tdiv budget parts) ∧
      (splitShares budget parts).1 + (parts - 1) * (splitShares budget parts).2 = budget ∧
      (Int.tmod budget parts ≤ 1 → (splitShares budget parts).1 = ceilDiv budget parts) ∧
      (parts = 2 → (splitShares budget parts).1 = ceilDiv budget parts) ∧
      (parts = 3 → Int.tmod budget parts = 2 →
        (splitShares budget parts).1 = ceilDiv budget parts + 1) := by
  intro budget parts hparts hle
  have hb : 0 ≤ budget := by omega
  have hbp : 0 ≤ budget + parts - 1 := by omega
  rcases hparts with h | h <;> subst h
  · rw [splitShares, ceilDiv,
      Int.tdiv_eq_ediv hb (by omega), Int.tmod_eq_emod hb (by omega),
      Int.tdiv_eq_ediv hbp (by omega)]
    refine ⟨rfl, ?_, ?_, ?_, ?_⟩ <;> omega
  · rw [splitShares, ceilDiv,
      Int.tdiv_eq_ediv hb (by omega), Int.tmod_eq_emod hb (by omega),
      Int.tdiv_eq_ediv hbp (by omega)]
    refine ⟨rfl, ?_, ?_, ?_, ?_⟩ <;> omega

/-- C8 witness: the amended share law applied at budget 6, parts 2 (both
shares 3, the ceiling) and at budget 5, parts 3 (MSB share 3 =
⌈5/3⌉ + 1). -/
theorem C8_witness :
    splitShares 6 2 = (3, 3) ∧ (splitShares 6 2).1 = ceilDiv 6 2 ∧
    (splitShares 5 3).1 = ceilDiv 5 3 + 1 := by
  have h6 := C8_split_shares_amended 6 2 (.inl rfl) (by decide)
  have h5 := C8_split_shares_amended 5 3 (.inr rfl) (by decide)
  exact ⟨by decide, h6.2.2.2.1 rfl, h5.2.2.2.2 rfl (by decide)⟩

/-! Groundwork for the `format_number` claims: structure of the decimal
digit string. -/

theorem natDigitsF_congr :
    ∀ (fuel₁ fuel₂ n : ℕ), n < fuel₁ → n < fuel₂ →
      natDigitsF fuel₁ n = natDigitsF fuel₂ n := by
  intro fuel₁
  induction fuel₁ with
  | zero => intro fuel₂ n h1 _; omega
  | succ f ih =>
    intro fuel₂ n h1 h2
    cases fuel₂ with
    | zero => omega
    | succ f2 =>
      simp only [natDigitsF]
      by_cases h10 : n < 10
      · rw [if_pos h10, if_pos h10]
      · rw [if_neg h10, if_neg h10]
        have hdiv : n / 10 < n := Nat.div_lt_self (by omega) (by omega)
        rw [ih f2 (n / 10) (by omega) (by omega)]

theorem natDigits_lt (n : ℕ) (h : n < 10) : natDigits n = [Nat.digitChar n] := by
  simp only [natDigits, natDigitsF]
  rw [if_pos h]

theorem natDigits_ge (n : ℕ) (h : 10 ≤ n) :
    natDigits n = natDigits (n / 10) ++ [Nat.digitChar (n % 10)] := by
  have hdiv : n / 10 < n := Nat.div_lt_self (by omega) (by omega)
  simp only [natDigits, natDigitsF]
  rw [if_neg (by omega)]
  rw [natDigitsF_congr n (n / 10 + 1) (n / 10) (by omega) (by omega)]
  rfl

theorem digitChar_isDigit (k : ℕ) (h : k < 10) : (Nat.digitChar k).isDigit = true := by
  interval_cases k <;> decide

theorem natDigits_isDigit :
    ∀ (n : ℕ) (c : Char), c ∈ natDigits n → c.isDigit = true := by
  intro n
  induction n using Nat.strong_induction_on with
  | _ n ih =>
    intro c hc
    by_cases h10 : n < 10
    · rw [natDigits_lt n h10] at hc
      simp only [List.mem_singleton] at hc
      subst hc
      exact digitChar_isDigit n h10
    · rw [natDigits_ge n (by omega)] at hc
      rcases List.mem_append.mp hc with hc | hc
      · exact ih (n / 10) (Nat.div_lt_self (by omega) (by omega)) c hc
      · simp only [List.mem_singleton] at hc
        subst hc
        exact digitChar_isDigit (n % 10) (Nat.mod_lt n (by omega))

theorem natDigits_mul_ten (n : ℕ) (h : 1 ≤ n) :
    natDigits (n * 10) = natDigits n ++ ['0'] := by
  rw [natDigits_ge (n * 10) (by omega)]
  rw [Nat.mul_div_cancel n (by omega), Nat.mul_mod_left n 10]
  rfl

theorem natDigits_mul_pow (n : ℕ) (h : 1 ≤ n) :
    ∀ k : ℕ, natDigits (n * 10 ^ k) = natDigits n ++ List.replicate k '0' := by
  intro k
  induction k with
  | zero => simp
  | succ k ih =>
    have hone : 1 ≤ 10 ^ k := Nat.one_le_pow k 10 (by omega)
    have : n * 10 ^ (k + 1) = n * 10 ^ k * 10 := by ring
    rw [this, natDigits_mul_ten (n * 10 ^ k) (by nlinarith), ih,
      List.append_assoc, ← List.replicate_succ' k]

theorem natDigits_length :
    ∀ n : ℕ, (natDigits n).length = Nat.log 10 n + 1 := by
  intro n
  induction n using Nat.strong_induction_on with
  | _ n ih =>
    by_cases h10 : n < 10
    · rw [natDigits_lt n h10]
      have : Nat.log 10 n = 0 := Nat.log_eq_zero_iff.mpr (.inl h10)
      simp [this]
    · rw [natDigits_ge n (by omega)]
      have hdiv : n / 10 < n := Nat.div_lt_self (by omega) (by omega)
      have hlog : Nat.log 10 (n / 10) = Nat.log 10 n - 1 := Nat.log_div_base 10 n
      have hpos : 0 < Nat.log 10 n := Nat.log_pos (by omega) (by omega)
      rw [List.length_append, ih (n / 10) hdiv]
      simp only [List.length_singleton]
      omega

theorem stripZerosF_spec :
    ∀ (fuel : ℕ) (n : ℤ) (s : ℤ), n ≠ 0 → n.natAbs < 10 ^ fuel →
      ∃ (k : ℕ) (m : ℤ), stripZerosF fuel n s = (m, s - k) ∧ n = m * 10 ^ k ∧ m ≠ 0 := by
  intro fuel
  induction fuel with
  | zero =>
    intro n s hn hb
    simp only [pow_zero, Nat.lt_one_iff, Int.natAbs_eq_zero] at hb
    exact absurd hb hn
  | succ f ih =>
    intro n s hn hb
    simp only [stripZerosF]
    by_cases hc : n ≠ 0 ∧ n % 10 = 0
    · rw [if_pos hc]
      have hdvd : (10 : ℤ) ∣ n := Int.dvd_of_emod_eq_zero hc.2
      obtain ⟨m, hm⟩ := hdvd
      have htdiv : Int.tdiv n 10 = m := by
        rw [hm]
        exact Int.mul_tdiv_cancel_left m (by omega)
      have hm0 : m ≠ 0 := by
        intro h0
        rw [h0, mul_zero] at hm
        exact hn hm
      have habs : m.natAbs < 10 ^ f := by
        have : n.natAbs = 10 * m.natAbs := by
          rw [hm, Int.natAbs_mul]
          rfl
        rw [this] at hb
        rw [pow_succ] at hb
        omega
      obtain ⟨k, m', hres, heq, hm'⟩ := ih m (s - 1) hm0 habs
      refine ⟨k + 1, m', ?_, ?_, hm'⟩
      · rw [htdiv, hres]
        congr 1
        push_cast
        ring
      · rw [hm, heq, pow_succ]
        ring
    · rw [if_neg hc]
      exact ⟨0, n, by simp, by simp, hn⟩

theorem reprOf_int (m : ℤ) (hm : m ≠ 0) :
    reprOf ⟨m, 0⟩ = (if m < 0 then ['-'] else []) ++ natDigits m.natAbs := by
  obtain ⟨k, m', hres, heq, hm'⟩ :=
    stripZerosF_spec m.natAbs m 0 hm (Nat.lt_pow_self (by omega) m.natAbs)
  have hstrip : stripTrailingZeros m 0 = (m', -(k : ℤ)) := by
    rw [stripTrailingZeros, hres]
    congr 1
    omega
  have hnorm : BigDecimal.normalized ⟨m, 0⟩ = ⟨m', -(k : ℤ)⟩ := by
    simp only [BigDecimal.normalized]
    rw [if_neg hm, hstrip]
  have hp : (0 : ℤ) < 10 ^ k := by positivity
  have hsign : m < 0 ↔ m' < 0 := by
    rw [heq]
    constructor
    · intro h
      by_contra h'
      push_neg at h'
      nlinarith
    · intro h
      exact mul_neg_of_neg_of_pos h hp
  have habs : m.natAbs = m'.natAbs * 10 ^ k := by
    rw [heq, Int.natAbs_mul]
    congr 1
    rw [Int.natAbs_pow]
    rfl
  have hdig : natDigits m.natAbs = natDigits m'.natAbs ++ List.replicate k '0' := by
    rw [habs]
    exact natDigits_mul_pow m'.natAbs (Int.natAbs_pos.mpr hm') k
  rw [reprOf, hnorm]
  simp only [toPlainChars]
  rw [if_pos (by omega : -(k : ℤ) ≤ 0)]
  rw [hdig]
  have hneg : (-(-(k : ℤ))).toNat = k := by omega
  rw [hneg]
  rw [if_congr hsign.symm rfl rfl]
  rw [List.append_assoc]

theorem no_dot_in_intRepr (m : ℤ) (hm : m ≠ 0) :
    (reprOf ⟨m, 0⟩).findIdx? (fun c => c = '.') = none := by
  rw [List.findIdx?_eq_none_iff]
  intro x hx
  rw [reprOf_int m hm] at hx
  rcases List.mem_append.mp hx with hx | hx
  · by_cases hlt : m < 0
    · rw [if_pos hlt] at hx
      simp only [List.mem_singleton] at hx
      subst hx
      decide
    · rw [if_neg hlt] at hx
      simp at hx
  · have hd := natDigits_isDigit m.natAbs x hx
    have : x ≠ '.' := by
      intro he
      rw [he] at hd
      exact absurd hd (by decide)
    simp [this]

theorem absStart_int (m : ℤ) : absStart ⟨m, 0⟩ = if m < 0 then 1 else 0 := by
  simp [absStart, BigDecimal.vlt, alignInts, BigDecimal.zero]

/-- C7: on every 12-digit integer (either sign) at width 10 with
grouping off, `format_number` renders exactly 10 characters and embeds
the digit count 12 between the two markers; and whenever the split path
is reached with a budget below the number of parts — e.g. a 13-digit
negative number at width 6, or width 0 — the output is exactly the
single marker character. -/
theorem C7_split_layout_and_marker :
    (∀ m : ℤ, 10 ^ 11 ≤ m.natAbs → m.natAbs < 10 ^ 12 →
      (format_number ⟨m, 0⟩ 10 false).length = 10 ∧
      ∃ pre post, format_number ⟨m, 0⟩ 10 false =
        pre ++ ('~' :: '1' :: '2' :: '~' :: []) ++ post) ∧
    (∀ (n : BigDecimal) (width : ℕ),
      ¬ (reprOf n).length ≤ width →
      ¬ (0 < digitsAfterDot (reprOf n) ∧ 0 ≤ (width : ℤ) - digitsToDot (reprOf n) - 1) →
      budgetOf n width (reprOf n) < partsOf (reprOf n) →
      format_number n width false = ['~']) ∧
    format_number ⟨-1234567890123, 0⟩ 6 false = ['~'] ∧
    format_number ⟨123456789098, 0⟩ 0 false = ['~'] := by
  refine ⟨?_, ?_, by decide, by decide⟩
  · intro m h1 h2
    have hm : m ≠ 0 := by
      intro h0
      rw [h0] at h1
      simp at h1
    have h2' : m.natAbs < 10 ^ (11 + 1) := by simpa using h2
    have hlen12 : (natDigits m.natAbs).length = 12 := by
      rw [natDigits_length, Nat.log_eq_of_pow_le_of_lt_pow h1 h2']
    have hdot := no_dot_in_intRepr m hm
    have hdad : digitsAfterDot (reprOf ⟨m, 0⟩) = 0 := by
      rw [digitsAfterDot, hdot]
    by_cases hneg : m < 0
    · have hrep : reprOf ⟨m, 0⟩ = '-' :: natDigits m.natAbs := by
        rw [reprOf_int m hm, if_pos hneg]
        rfl
      have hlen : (reprOf ⟨m, 0⟩).length = 13 := by
        rw [hrep]
        simp [hlen12]
      have habs : absStart ⟨m, 0⟩ = 1 := by
        rw [absStart_int, if_pos hneg]
      have hdtd : digitsToDot (reprOf ⟨m, 0⟩) = 13 := by
        rw [digitsToDot, hdad, hlen]
        norm_num
      have hdbd : digitsBeforeDot (reprOf ⟨m, 0⟩) = 13 := by
        rw [digitsBeforeDot, hdtd, hdad]
        norm_num
      have hpow : powToken ⟨m, 0⟩ (reprOf ⟨m, 0⟩) = ['~', '1', '2', '~'] := by
        rw [powToken, hdbd, habs]
        rw [show (13 : ℤ) - 1 = 12 from by norm_num]
        decide
      have hbud : budgetOf ⟨m, 0⟩ 10 (reprOf ⟨m, 0⟩) = 5 := by
        rw [budgetOf, habs, hdad, hpow]
        norm_num
      have hparts : partsOf (reprOf ⟨m, 0⟩) = 2 := by
        rw [partsOf, hdad]
        norm_num
      have heq : format_number ⟨m, 0⟩ 10 false =
          (reprOf ⟨m, 0⟩).take 4 ++ ['~', '1', '2', '~'] ++ (reprOf ⟨m, 0⟩).drop 11 := by
        rw [format_number]
        rw [if_neg (by rw [hlen]; norm_num)]
        rw [if_neg (by rw [hdad]; norm_num)]
        rw [if_neg (by rw [hbud, hparts]; norm_num)]
        rw [hbud, hparts, habs, hpow, hdad, hlen]
        rw [show splitShares 5 2 = (3, 2) from by decide,
          show Int.toNat 3 = 3 from rfl, show Int.toNat 2 = 2 from rfl]
        norm_num
      refine ⟨?_, (reprOf ⟨m, 0⟩).take 4, (reprOf ⟨m, 0⟩).drop 11, heq⟩
      rw [heq]
      simp only [List.length_append, List.length_take, List.length_drop, hlen]
      norm_num
    · have hrep : reprOf ⟨m, 0⟩ = natDigits m.natAbs := by
        rw [reprOf_int m hm, if_neg hneg]
        rfl
      have hlen : (reprOf ⟨m, 0⟩).length = 12 := by
        rw [hrep, hlen12]
      have habs : absStart ⟨m, 0⟩ = 0 := by
        rw [absStart_int, if_neg hneg]
      have hdtd : digitsToDot (reprOf ⟨m, 0⟩) = 12 := by
        rw [digitsToDot, hdad, hlen]
        norm_num
      have hdbd : digitsBeforeDot (reprOf ⟨m, 0⟩) = 12 := by
        rw [digitsBeforeDot, hdtd, hdad]
        norm_num
      have hpow : powToken ⟨m, 0⟩ (reprOf ⟨m, 0⟩) = ['~', '1', '2', '~'] := by
        rw [powToken, hdbd, habs]
        rw [show (12 : ℤ) - 0 = 12 from by norm_num]
        decide
      have hbud : budgetOf ⟨m, 0⟩ 10 (reprOf ⟨m, 0⟩) = 6 := by
        rw [budgetOf, habs, hdad, hpow]
        norm_num
      have hparts : partsOf (reprOf ⟨m, 0⟩) = 2 := by
        rw [partsOf, hdad]
        norm_num
      have heq : format_number ⟨m, 0⟩ 10 false =
          (reprOf ⟨m, 0⟩).take 3 ++ ['~', '1', '2', '~'] ++ (reprOf ⟨m, 0⟩).drop 9 := by
        rw [format_number]
        rw [if_neg (by rw [hlen]; norm_num)]
        rw [if_neg (by rw [hdad]; norm_num)]
        rw [if_neg (by rw [hbud, hparts]; norm_num)]
        rw [hbud, hparts, habs, hpow, hdad, hlen]
        rw [show splitShares 6 2 = (3, 3) from by decide,
          show Int.toNat 3 = 3 from rfl]
        norm_num
      refine ⟨?_, (reprOf ⟨m, 0⟩).take 3, (reprOf ⟨m, 0⟩).drop 9, heq⟩
      rw [heq]
      simp only [List.length_append, List.length_take, List.length_drop, hlen]
      norm_num
  · intro n width hfit htrunc hbud
    rw [format_number, if_neg hfit, if_neg htrunc, if_pos hbud]

/-- C7 witness: the split-layout law applied to the 12-digit integer
123456789098 at width 10, and the marker law applied to the 13-digit
negative number −1234567890123 at width 6. -/
theorem C7_witness :
    (format_number ⟨123456789098, 0⟩ 10 false).length = 10 ∧
    (∃ pre post, format_number ⟨123456789098, 0⟩ 10 false =
      pre ++ ('~' :: '1' :: '2' :: '~' :: []) ++ post) ∧
    format_number ⟨-1234567890123, 0⟩ 6 false = ['~'] := by
  have h1 := C7_split_layout_and_marker.1 123456789098 (by decide) (by decide)
  have h2 := C7_split_layout_and_marker.2.1 ⟨-1234567890123, 0⟩ 6
    (by decide) (by decide) (by decide)
  exact ⟨h1.1, h1.2, h2⟩

/-- C1 witness: instantiation at `Add` on the one-element stack `[7]`
(which errors with `MissingValue 2` and leaves the state unchanged). -/
theorem C1_witness :
    (Stack.fromValues [⟨7, 0⟩] none).apply .Add =
      (.error (.MissingValue 2), Stack.fromValues [⟨7, 0⟩] none) ∧
    ((Stack.fromValues [⟨7, 0⟩] none).apply .Add).2.snapshot =
      (Stack.fromValues [⟨7, 0⟩] none).snapshot := by
  have h := C1_apply_transactional (Stack.fromValues [⟨7, 0⟩] none) .Add
    (by decide) (by decide)
  have herr : (Stack.fromValues [⟨7, 0⟩] none).apply .Add =
      (.error (.MissingValue 2), Stack.fromValues [⟨7, 0⟩] none) := by decide
  exact ⟨herr, (h.1 (.MissingValue 2) (Stack.fromValues [⟨7, 0⟩] none) herr).2.1⟩

end HC
